import Mathlib

/-!
Verification of the langchain-references Python extractor
(`packages/extractor-python/src/langchain_extractor_python/`).

The development shallowly embeds the extractor (`extractor.py`) and the IR
transformer (`transformer.py`) as executable Lean functions over lists of
characters, `Option`-valued record fields (Python `None` / missing keys),
and explicit state passing, and proves the specification claims about them.
-/

namespace LCRef

/-! ## Python string primitives

Python `str` operations are modelled over `List Char`.  `pyIn` is the
Python `in` operator on strings (substring containment), `pyStartsWith` /
`pyEndsWith` are `str.startswith` / `str.endswith`, `pyReplace` is
`str.replace` (all non-overlapping occurrences, left to right), `pySplit`
is `str.split(sep)` for a one-character separator, and `pyStrip` is
`str.strip()` with Python's default whitespace set. -/

/-- Is `needle` a prefix of the second list?  (Recursion is on the needle
first, so `isPrefixL [] l` reduces without inspecting `l`.) -/
def isPrefixL : List Char → List Char → Bool
  | [], _ => true
  | a :: as, l =>
    match l with
    | [] => false
    | b :: bs => a == b && isPrefixL as bs

/-- Is `needle` a contiguous infix of `hay`? (scan every start position) -/
def isInfixL (needle : List Char) : List Char → Bool
  | [] => needle.isEmpty
  | c :: cs => isPrefixL needle (c :: cs) || isInfixL needle cs

def pyIn (needle hay : String) : Bool :=
  isInfixL needle.data hay.data

def pyStartsWith (s pre : String) : Bool :=
  isPrefixL pre.data s.data

def pyEndsWith (s suf : String) : Bool :=
  suf.data.isSuffixOf s.data

/-- `str.replace` over char lists; scans left to right and skips the
pattern length on each match.  The pattern `p0 :: ps` is non-empty
(Python never calls it with an empty pattern in this code base), so every
step consumes at least one character and fuel `l.length` is exact. -/
def replaceL (p0 : Char) (ps rep : List Char) : Nat → List Char → List Char
  | 0, l => l
  | _ + 1, [] => []
  | f + 1, c :: rest =>
    if isPrefixL (p0 :: ps) (c :: rest) then
      rep ++ replaceL p0 ps rep f ((c :: rest).drop (ps.length + 1))
    else
      c :: replaceL p0 ps rep f rest

def pyReplace (s pat rep : String) : String :=
  match pat.data with
  | [] => s
  | p0 :: ps => String.mk (replaceL p0 ps rep.data s.data.length s.data)

/-- Split a char list on a separator character (Python `str.split(sep)`:
no collapsing, the empty string splits to one empty field). -/
def splitCh (sep : Char) : List Char → List (List Char)
  | [] => [[]]
  | c :: rest =>
    if c = sep then [] :: splitCh sep rest
    else
      match splitCh sep rest with
      | [] => [[c]]
      | l :: ls => (c :: l) :: ls

def pySplit (s : String) (sep : Char) : List String :=
  (splitCh sep s.data).map String.mk

/-- Python's default `str.strip` whitespace characters. -/
def isPySpace (c : Char) : Bool :=
  c = ' ' || c = '\t' || c = '\n' || c = '\r' || c = '\x0b' || c = '\x0c'

def pyStripL (l : List Char) : List Char :=
  ((l.dropWhile isPySpace).reverse.dropWhile isPySpace).reverse

def pyStrip (s : String) : String :=
  String.mk (pyStripL s.data)

/-! ## MD5 (as used by `hashlib.md5(path.encode()).hexdigest()`)

A direct executable implementation of RFC 1321 over byte lists, with
32-bit arithmetic carried out in `Nat` modulo `2 ^ 32`. -/

def u32 (n : Nat) : Nat := n % 4294967296

def rotl32 (x s : Nat) : Nat :=
  u32 (x * 2 ^ s + x / 2 ^ (32 - s))

def not32 (x : Nat) : Nat := 4294967295 - x

/-- UTF-8 encoding of one character as a list of byte values. -/
def utf8Bytes (c : Char) : List Nat :=
  let n := c.toNat
  if n < 128 then [n]
  else if n < 2048 then [192 + n / 64, 128 + n % 64]
  else if n < 65536 then [224 + n / 4096, 128 + n / 64 % 64, 128 + n % 64]
  else [240 + n / 262144, 128 + n / 4096 % 64, 128 + n / 64 % 64, 128 + n % 64]

def strBytes (s : String) : List Nat :=
  (s.data.map utf8Bytes).foldr (· ++ ·) []

/-- Per-round shift amounts. -/
def md5s : List Nat :=
  [7, 12, 17, 22, 7, 12, 17, 22, 7, 12, 17, 22, 7, 12, 17, 22,
   5, 9, 14, 20, 5, 9, 14, 20, 5, 9, 14, 20, 5, 9, 14, 20,
   4, 11, 16, 23, 4, 11, 16, 23, 4, 11, 16, 23, 4, 11, 16, 23,
   6, 10, 15, 21, 6, 10, 15, 21, 6, 10, 15, 21, 6, 10, 15, 21]

/-- Per-round additive constants (floor(abs(sin(i+1)) * 2^32)). -/
def md5K : List Nat :=
  [3614090360, 3905402710, 606105819, 3250441966,
   4118548399, 1200080426, 2821735955, 4249261313,
   1770035416, 2336552879, 4294925233, 2304563134,
   1804603682, 4254626195, 2792965006, 1236535329,
   4129170786, 3225465664, 643717713, 3921069994,
   3593408605, 38016083, 3634488961, 3889429448,
   568446438, 3275163606, 4107603335, 1163531501,
   2850285829, 4243563512, 1735328473, 2368359562,
   4294588738, 2272392833, 1839030562, 4259657740,
   2763975236, 1272893353, 4139469664, 3200236656,
   681279174, 3936430074, 3572445317, 76029189,
   3654602809, 3873151461, 530742520, 3299628645,
   4096336452, 1126891415, 2878612391, 4237533241,
   1700485571, 2399980690, 4293915773, 2240044497,
   1873313359, 4264355552, 2734768916, 1309151649,
   4149444226, 3174756917, 718787259, 3951481745]

/-- Pad a byte message per MD5: append 0x80, zero-fill to 56 mod 64, then
the original bit length as 8 little-endian bytes. -/
def md5pad (msg : List Nat) : List Nat :=
  let bitLen := (8 * msg.length) % 2 ^ 64
  let afterOne := msg ++ [128]
  let zeros := (64 + 56 - afterOne.length % 64) % 64
  afterOne ++ List.replicate zeros 0 ++
    (List.range 8).map (fun i => bitLen / 2 ^ (8 * i) % 256)

/-- Split a list into 64-element chunks (fuel-structured; each step
consumes at least one element, so fuel `l.length` is enough). -/
def chunks64F : Nat → List Nat → List (List Nat)
  | 0, _ => []
  | _ + 1, [] => []
  | f + 1, c :: cs => (c :: cs).take 64 :: chunks64F f ((c :: cs).drop 64)

def chunks64 (l : List Nat) : List (List Nat) :=
  chunks64F l.length l

/-- The 16 little-endian 32-bit words of one 64-byte chunk. -/
def md5words (chunk : List Nat) : List Nat :=
  (List.range 16).map fun j =>
    chunk.getD (4 * j) 0 + 256 * chunk.getD (4 * j + 1) 0 +
      65536 * chunk.getD (4 * j + 2) 0 + 16777216 * chunk.getD (4 * j + 3) 0

/-- One of the 64 MD5 rounds applied to the state (A, B, C, D). -/
def md5round (M : List Nat) (st : Nat × Nat × Nat × Nat) (i : Nat) :
    Nat × Nat × Nat × Nat :=
  let (a, b, c, d) := st
  let fg : Nat × Nat :=
    if i < 16 then ((b &&& c) ||| (not32 b &&& d), i)
    else if i < 32 then ((d &&& b) ||| (not32 d &&& c), (5 * i + 1) % 16)
    else if i < 48 then (b ^^^ c ^^^ d, (3 * i + 5) % 16)
    else (c ^^^ (b ||| not32 d), (7 * i) % 16)
  let f := u32 (fg.1 + a + md5K.getD i 0 + M.getD fg.2 0)
  (d, u32 (b + rotl32 f (md5s.getD i 0)), b, c)

def md5chunk (st : Nat × Nat × Nat × Nat) (chunk : List Nat) :
    Nat × Nat × Nat × Nat :=
  let M := md5words chunk
  let (a, b, c, d) := (List.range 64).foldl (md5round M) st
  (u32 (st.1 + a), u32 (st.2.1 + b), u32 (st.2.2.1 + c), u32 (st.2.2.2 + d))

def hexDigit (n : Nat) : Char :=
  if n < 10 then Char.ofNat (48 + n) else Char.ofNat (87 + n)

/-- Little-endian hex rendering of one 32-bit word (4 bytes, 2 digits each). -/
def word2hex (w : Nat) : List Char :=
  (List.range 4).foldr
    (fun i acc => hexDigit (w / 2 ^ (8 * i) % 256 / 16) ::
      hexDigit (w / 2 ^ (8 * i) % 256 % 16) :: acc) []

/-- `hashlib.md5(s.encode()).hexdigest()`. -/
def md5hex (s : String) : String :=
  let st := (chunks64 (md5pad (strBytes s))).foldl md5chunk
    (1732584193, 4023233417, 2562383102, 271733878)
  String.mk (word2hex st.1 ++ word2hex st.2.1 ++ word2hex st.2.2.1 ++
    word2hex st.2.2.2)

/-! ## Configuration (`config.py`, `ExtractionConfig`)

Only the fields consulted by the embedded functions are carried. -/

structure ExtractionConfig where
  package_name : String
  include_private : Bool := false
  include_special : Bool := false
  exclude_patterns : List String := []

/-! ## Identifier and URL generation (`transformer.py`, `IRTransformer`) -/

/-- `IRTransformer._generate_package_id`. -/
def generate_package_id (cfg : ExtractionConfig) : String :=
  let normalized := pyReplace (pyReplace cfg.package_name "-" "_") "." "_"
  "pkg_py_" ++ normalized

/-- `hexdigest()[:8]`: the first 8 characters. -/
def hexPrefix8 (s : String) : String :=
  String.mk (s.data.take 8)

/-- `IRTransformer._generate_symbol_id`. -/
def generate_symbol_id (kind path : String) : String :=
  let path_hash := hexPrefix8 (md5hex path)
  let normalized_path := pyReplace path "." "_"
  "sym_py_" ++ kind ++ "_" ++ normalized_path ++ "_" ++ path_hash

/-- `IRTransformer._generate_url`. -/
def generate_url (cfg : ExtractionConfig) (kind path : String) : String :=
  let parts := pySplit path '.'
  let package_name := pyReplace cfg.package_name "-" "_"
  if kind = "class" then
    "/python/" ++ package_name ++ "/classes/" ++ parts.getLastD "" ++ "/"
  else if kind = "function" then
    "/python/" ++ package_name ++ "/functions/" ++ parts.getLastD "" ++ "/"
  else if kind = "module" then
    "/python/" ++ package_name ++ "/modules/" ++
      String.intercalate "/" (parts.drop 1) ++ "/"
  else
    "/python/" ++ package_name ++ "/" ++ kind ++ "s/" ++ parts.getLastD "" ++ "/"

/-! ## Inclusion filter and module skipping (`extractor.py`) -/

/-- `PythonExtractor._should_skip_module`. -/
def should_skip_module (cfg : ExtractionConfig) (module_path : String) : Bool :=
  if cfg.exclude_patterns.isEmpty then false
  else cfg.exclude_patterns.any fun pattern => pyIn pattern module_path

/-- The data of a griffe object consulted by `_should_include`. -/
structure IncludeObj where
  name : String
  path : String
  is_alias : Bool := false

/-- `PythonExtractor._should_include`. -/
def should_include (cfg : ExtractionConfig) (obj : IncludeObj) : Bool :=
  if obj.is_alias then false
  else if pyStartsWith obj.name "_" && !cfg.include_private then
    -- But allow dunder methods if include_special is True
    cfg.include_special && pyStartsWith obj.name "__" && pyEndsWith obj.name "__"
  else
    !(cfg.exclude_patterns.any fun pattern => pyIn pattern obj.path)

/-! ## Kind classification (`PythonExtractor._get_kind`) -/

/-- griffe's `Kind` enumeration as seen through
`str(kind.name).lower()` in `_get_kind`. -/
inductive GKind where
  | module | cls | function | attribute | alias | other
deriving DecidableEq, Repr

/-- The `kind_map` lookup in `_get_kind` (before method reclassification). -/
def kind_map (k : GKind) : String :=
  match k with
  | .module => "module"
  | .cls => "class"
  | .function => "function"
  | .attribute => "attribute"
  | .alias => "alias"
  | .other => "unknown"

/-- `PythonExtractor._get_kind`: a function whose parent is a class becomes
a method.  `parent` is the parent object's griffe kind, when a parent exists. -/
def get_kind (k : GKind) (parent : Option GKind) : String :=
  let base_kind := kind_map k
  if base_kind = "function" then
    match parent with
    | some .cls => "method"
    | _ => base_kind
  else base_kind

/-! ## Implausible-value heuristic (`PythonExtractor._is_invalid_repr`) -/

def invalid_patterns : List String :=
  ["<bound method", "<function", "<class", "<module", "<built-in", "<lambda"]

/-- `PythonExtractor._is_invalid_repr`. -/
def is_invalid_repr (value : String) : Bool :=
  if value = "" then false
  else
    let stripped := pyStrip value
    invalid_patterns.any fun pattern => pyIn pattern stripped

/-! ## Member info and TypedDict constructor synthesis (`extractor.py`) -/

/-- The data of a griffe member object consulted by `_get_member_info` and
`_synthesize_typeddict_init`.  `annotation` is the string form of the
annotation when one is set (`None` otherwise), `target_path` the alias
target when the loader exposes one. -/
structure MemberObj where
  gkind : GKind
  annot : Option String := none
  is_alias : Bool := false
  target_path : Option String := none

/-- The data of a griffe class/module object consulted by the member-info
functions: its own kind, its base-class strings and its ordered
name-to-member mapping. -/
structure OwnerObj where
  gkind : GKind
  bases : List String := []
  members : List (String × MemberObj) := []

/-- One entry of the extracted `members` list (a Python dict with
optional keys). -/
structure MemberInfo where
  name : String
  kind : String
  signature : Option String := none
  params : Option (List (String × String)) := none
  type : Option String := none
  target : Option String := none
deriving DecidableEq, Repr

/-- `PythonExtractor._is_typeddict`: any base whose string contains
"TypedDict". -/
def is_typeddict (obj : OwnerObj) : Bool :=
  obj.bases.any fun base => pyIn "TypedDict" base

/-- The parameter-collection loop of `_synthesize_typeddict_init`:
non-private attribute members in declaration order, each with its
annotation when present and plausible (empty string otherwise). -/
def typeddict_attr_params (obj : OwnerObj) : List (String × String) :=
  obj.members.filterMap fun nm =>
    if pyStartsWith nm.1 "_" then none
    else if get_kind nm.2.gkind (some obj.gkind) ≠ "attribute" then none
    else
      some (nm.1,
        match nm.2.annot with
        | some a => if a ≠ "" && !is_invalid_repr a then a else ""
        | none => "")

/-- `PythonExtractor._synthesize_typeddict_init`. -/
def synthesize_typeddict_init (obj : OwnerObj) : Option MemberInfo :=
  let params := typeddict_attr_params obj
  if params.isEmpty then none
  else
    let param_strs := params.map fun p =>
      if p.2 ≠ "" then p.1 ++ ": " ++ p.2 else p.1
    let signature :=
      if param_strs.isEmpty then "__init__()"
      else "__init__(\n    " ++ String.intercalate ",\n    " param_strs ++ ",\n)"
    some { name := "__init__", kind := "constructor",
           signature := some signature, params := some params }

/-- `PythonExtractor._get_member_info`.  The `_cfg` parameter mirrors the
method's access to `self.config`, which the source never reads here. -/
def get_member_info (_cfg : ExtractionConfig) (obj : OwnerObj) :
    List MemberInfo :=
  (if is_typeddict obj then (synthesize_typeddict_init obj).toList else []) ++
  obj.members.filterMap fun nm =>
    if pyStartsWith nm.1 "_" then none
    else
      let kind := get_kind nm.2.gkind (some obj.gkind)
      some { name := nm.1, kind := kind,
             type :=
               if kind = "attribute" then
                 match nm.2.annot with
                 | some a => if a ≠ "" && !is_invalid_repr a then some a else none
                 | none => none
               else none,
             target :=
               if nm.2.is_alias then
                 match nm.2.target_path with
                 | some t => if t ≠ "" then some t else none
                 | none => none
               else none }

/-! ## Signature synthesis (`PythonExtractor._get_signature`)

Parameter kinds are griffe's `ParameterKind`; `_get_signature` probes the
kind's string form for the substrings `positional_only`/`positional-only`,
`keyword_only`/`keyword-only`, `var_positional`/`var-positional` and
`var_keyword`/`var-keyword`, which classifies each parameter into exactly
one of the five Python parameter kinds. -/

inductive PKind where
  | positional_only | positional_or_keyword | keyword_only
  | var_positional | var_keyword
deriving DecidableEq, Repr

structure Param where
  name : String
  kind : PKind := .positional_or_keyword
  annot : Option String := none
  default : Option String := none

/-- The loop state of `_get_signature`: the accumulated parameter strings
and the four separator-tracking flags. -/
structure SigState where
  params : List String := []
  has_positional_only : Bool := false
  has_keyword_only : Bool := false
  positional_only_added : Bool := false
  keyword_only_added : Bool := false
deriving Repr

/-- One iteration of the parameter loop of `_get_signature`. -/
def sigStep (st : SigState) (param : Param) : SigState :=
  let is_positional_only := param.kind = .positional_only
  let is_keyword_only := param.kind = .keyword_only
  let is_var_positional := param.kind = .var_positional
  let is_var_keyword := param.kind = .var_keyword
  -- Handle positional-only separator
  let st :=
    if is_positional_only then { st with has_positional_only := true }
    else if st.has_positional_only && !st.positional_only_added then
      { st with params := st.params ++ ["/"], positional_only_added := true }
    else st
  -- Handle keyword-only separator (but not if we just added *args)
  let st :=
    if is_keyword_only && !st.has_keyword_only && !is_var_positional then
      if !st.keyword_only_added then
        { st with has_keyword_only := true,
                  params := st.params ++ ["*"], keyword_only_added := true }
      else { st with has_keyword_only := true }
    else st
  -- Handle *args and **kwargs
  let param_str :=
    if is_var_positional then "*" ++ param.name
    else if is_var_keyword then "**" ++ param.name
    else param.name
  let st :=
    if is_var_positional then { st with keyword_only_added := true } else st
  -- Add type annotation if present (and plausible)
  let param_str :=
    match param.annot with
    | some a => if a ≠ "" && !is_invalid_repr a then param_str ++ ": " ++ a
                else param_str
    | none => param_str
  -- Add default value if present (and plausible)
  let param_str :=
    match param.default with
    | some d => if d ≠ "" && !is_invalid_repr d then param_str ++ " = " ++ d
                else param_str
    | none => param_str
  { st with params := st.params ++ [param_str] }

/-- The parameter-string list produced by `_get_signature`'s loop, with the
trailing `/` appended when positional-only parameters were the last ones. -/
def buildParamList (ps : List Param) : List String :=
  let st := ps.foldl sigStep {}
  if st.has_positional_only && !st.positional_only_added then
    st.params ++ ["/"]
  else st.params

/-- The signature string assembled by `_get_signature` before its final
implausible-value check. -/
def assembleSig (name : String) (ps : List Param) (returns : Option String) :
    String :=
  let params := buildParamList ps
  let signature :=
    if !params.isEmpty then
      name ++ "(\n    " ++ String.intercalate ",\n    " params ++ ",\n)"
    else name ++ "()"
  -- Add return type if available (and plausible)
  match returns with
  | some r => if r ≠ "" && !is_invalid_repr r then signature ++ " -> " ++ r
              else signature
  | none => signature

/-- The data of a callable consulted by `_get_signature`: `parameters` is
`none` when the object has no `parameters` attribute or it is `None`. -/
structure CallableObj where
  name : String
  parameters : Option (List Param) := none
  returns : Option String := none

/-- `PythonExtractor._get_signature`. -/
def get_signature (obj : CallableObj) : String :=
  match obj.parameters with
  | none => ""
  | some ps =>
    let signature := assembleSig obj.name ps obj.returns
    -- Final validation: ensure signature doesn't contain any invalid patterns
    if is_invalid_repr signature then "" else signature

/-! ## Tree walk (`PythonExtractor._walk`)

The griffe object graph is modelled as an arena of nodes addressed by their
`path` strings; member edges are the member objects' paths (a member edge
may point back to an ancestor or form an alias cycle).  `walk` threads the
mutable `visited` set explicitly and returns the sequence of yielded node
paths together with the final visited set.  The `fuel` argument bounds the
recursion depth; `walk_stabilizes` below shows that `fuel` beyond the
number of distinct paths never changes the result, which is the
termination content of the Python recursion. -/

structure GNode where
  path : String
  is_alias : Bool := false
  members : List String := []

structure Graph where
  nodes : List GNode := []

def Graph.find (g : Graph) (p : String) : Option GNode :=
  g.nodes.find? fun n => n.path = p

def Graph.paths (g : Graph) : List String :=
  (g.nodes.map GNode.path).dedup

/-- The member loop of `_walk`, parametrised by the recursive call `f`. -/
def walkList (cfg : ExtractionConfig) (f : String → List String → List String × List String) :
    List String → List String → List String × List String
  | [], visited => ([], visited)
  | m :: ms, visited =>
    -- Skip members that match exclude patterns
    if m ≠ "" ∧ should_skip_module cfg m = true then walkList cfg f ms visited
    else
      let r1 := f m visited
      let r2 := walkList cfg f ms r1.2
      (r1.1 ++ r2.1, r2.2)

/-- The part of `_walk` after the visited-set bookkeeping: skip excluded
modules and aliases, otherwise yield the node and recurse into members. -/
def walkBody (cfg : ExtractionConfig)
    (f : String → List String → List String × List String)
    (obj : GNode) (visited : List String) : List String × List String :=
  -- Skip modules that match exclude patterns
  if should_skip_module cfg obj.path then ([], visited)
  -- Skip ALL alias objects (imported symbols)
  else if obj.is_alias then ([], visited)
  else
    let r := walkList cfg f obj.members visited
    (obj.path :: r.1, r.2)

/-- `PythonExtractor._walk`, by recursion on `fuel`. -/
def walk (g : Graph) (cfg : ExtractionConfig) : Nat → String → List String → List String × List String
  | 0 => fun _ visited => ([], visited)
  | fuel + 1 => fun p visited =>
    match g.find p with
    | none => ([], visited)
    | some obj =>
      -- Use path to track visited objects and prevent infinite loops
      if obj.path = "" then walkBody cfg (walk g cfg fuel) obj visited
      else if obj.path ∈ visited then ([], visited)
      else walkBody cfg (walk g cfg fuel) obj (obj.path :: visited)

/-! ## Docstring sections: `_section_to_dict` and `_extract_params`

`_section_to_dict` turns a parsed griffe docstring section into a plain
dict; `_extract_params` (transformer) turns parameter-like sections into
IR param records.  Python dicts with optional keys are modelled with
`Option`: an outer `Option` is key presence, an inner `Option String` is a
value that can be Python `None`. -/

/-- A parsed griffe docstring item (e.g. `DocstringParameter`):
`annotation`/`default` are `none` when the attribute is `None`, and the
string form otherwise. -/
structure DocItem where
  name : String
  annot : Option String := none
  description : String := ""
  default : Option String := none

/-- The dict `_section_to_dict` builds per item.  `annotation` is always a
present key (value possibly `None`); `description` is always a present
key; `default` is present only when the item had a truthy default. -/
structure ItemDict where
  name : String
  annot : Option (Option String)
  description : Option String
  default : Option (Option String)
deriving DecidableEq, Repr

/-- The per-item body of `_section_to_dict`'s list branch. -/
def section_item_to_dict (it : DocItem) : ItemDict :=
  { name := it.name,
    -- "annotation": str(item.annotation) if getattr(item, "annotation", None) else None
    annot := some (match it.annot with
      | some a => if a ≠ "" then some a else none
      | none => none),
    -- "description": getattr(item, "description", "")
    description := some it.description,
    -- if hasattr(item, "default") and item.default: item_dict["default"] = str(item.default)
    default := match it.default with
      | some d => if d ≠ "" then some (some d) else none
      | none => none }

inductive SectionVal where
  | items : List ItemDict → SectionVal
  | text : String → SectionVal
deriving DecidableEq, Repr

structure SectionDict where
  kind : String
  value : SectionVal
deriving DecidableEq, Repr

/-- A parsed griffe docstring section handed to `_section_to_dict`: its
(lowered) kind name and either a list of items or a string value. -/
structure RawSection where
  kind : String
  value : Sum (List DocItem) String

/-- `PythonExtractor._section_to_dict` (the list and string value branches). -/
def section_to_dict (s : RawSection) : SectionDict :=
  match s.value with
  | .inl items => ⟨s.kind, .items (items.map section_item_to_dict)⟩
  | .inr t => ⟨s.kind, .text t⟩

/-- An IR param record as built by `_extract_params` (a dict whose `type`
value can be Python `None`, and whose `description`/`default` keys are
present only when truthy). -/
structure ParamRec where
  name : String
  type : Option String
  required : Bool
  description : Option String := none
  default : Option String := none
deriving DecidableEq, Repr

/-- The per-item body of `IRTransformer._extract_params`. -/
def item_to_param (it : ItemDict) : ParamRec :=
  -- item.get("annotation", "Any"): the key is always present in dicts
  -- produced by _section_to_dict, so the "Any" fallback never fires there
  let typ : Option String := match it.annot with
    | some v => v
    | none => some "Any"
  -- item.get("default") is None
  let dflt : Option String := match it.default with
    | some v => v
    | none => none
  { name := it.name,
    type := typ,
    required := dflt.isNone,
    description := match it.description with
      | some s => if s ≠ "" then some s else none
      | none => none,
    default := match dflt with
      | some d => if d ≠ "" then some d else none
      | none => none }

/-- `IRTransformer._extract_params`. -/
def extract_params (sections : List SectionDict) : List ParamRec :=
  sections.foldl
    (fun params s =>
      if s.kind = "parameters" || s.kind = "args" || s.kind = "arguments" then
        match s.value with
        | .items l => params ++ l.map item_to_param
        | .text _ => params
      else params)
    []

/-! ## Example cleaning (`transformer.py`, `clean_example_content`)

The four regular expressions of `clean_example_content` are realised as
explicit scanners over `List Char` with Python `re` semantics (lazy
captures take the shortest extension, `findall` scans left to right and
resumes after each match).  The `MULTILINE`-anchored admonition-opener
pattern is modelled line by line. -/

def isWordChar (c : Char) : Bool := c.isAlphanum || c = '_'

def isQB (c : Char) : Bool := c = '?' || c = '!'

/-- The part of `[\?\!]{3}\+?\s*\w+(?:\s+"[^"]*")?\s*$` after the three
marker characters. -/
def admRest (l : List Char) : Bool :=
  let l := match l with | '+' :: rest => rest | _ => l
  let l := l.dropWhile isPySpace
  let w := l.takeWhile isWordChar
  if w.isEmpty then false
  else
    let r := l.dropWhile isWordChar
    if r.all isPySpace then true
    else
      let sp := r.takeWhile isPySpace
      if sp.isEmpty then false
      else
        match r.dropWhile isPySpace with
        | '"' :: rest =>
          let q := rest.takeWhile fun c => c ≠ '"'
          match rest.drop q.length with
          | '"' :: tail => tail.all isPySpace
          | _ => false
        | _ => false

/-- Does a whole line match the admonition-opener pattern? -/
def admLine (l : List Char) : Bool :=
  match l with
  | c1 :: c2 :: c3 :: rest => isQB c1 && isQB c2 && isQB c3 && admRest rest
  | _ => false

def joinNl : List (List Char) → List Char
  | [] => []
  | [l] => l
  | l :: ls => l ++ '\n' :: joinNl ls

/-- The first `re.sub` of `clean_example_content`: blank out every line
matching the admonition-opener pattern. -/
def removeAdmonitionLines (s : List Char) : List Char :=
  joinNl ((splitCh '\n' s).map fun l => if admLine l then [] else l)

/-- Match `<p>[\?\!]{3}\+?\s*\w+(?:\s+"[^"]*")?</p>` at the head of `s`,
returning the remainder after the match. -/
def matchPAdm (s : List Char) : Option (List Char) :=
  if isPrefixL ['<', 'p', '>'] s then
    match s.drop 3 with
    | q1 :: q2 :: q3 :: rest =>
      if isQB q1 && isQB q2 && isQB q3 then
        let rest := match rest with | '+' :: r => r | _ => rest
        let rest := rest.dropWhile isPySpace
        let w := rest.takeWhile isWordChar
        if w.isEmpty then none
        else
          let r := rest.dropWhile isWordChar
          if isPrefixL ['<', '/', 'p', '>'] r then some (r.drop 4)
          else
            let sp := r.takeWhile isPySpace
            if sp.isEmpty then none
            else
              match r.dropWhile isPySpace with
              | '"' :: rest2 =>
                let q := rest2.takeWhile fun c => c ≠ '"'
                match rest2.drop q.length with
                | '"' :: tail =>
                  if isPrefixL ['<', '/', 'p', '>'] tail then some (tail.drop 4)
                  else none
                | _ => none
              | _ => none
      else none
    | _ => none
  else none

/-- The second `re.sub`: delete every `<p>…</p>`-wrapped admonition opener. -/
def removePAdm : Nat → List Char → List Char
  | 0, s => s
  | _ + 1, [] => []
  | f + 1, c :: cs =>
    match matchPAdm (c :: cs) with
    | some rest => removePAdm f rest
    | none => c :: removePAdm f cs

def tickFence : List Char := ['`', '`', '`']

def preCodeOpen : List Char :=
  ['<', 'p', 'r', 'e', '>', '<', 'c', 'o', 'd', 'e', '>', '`', '`', '`']

def closeCodePre : List Char :=
  ['<', '/', 'c', 'o', 'd', 'e', '>', '<', '/', 'p', 'r', 'e', '>']

/-- Lazy capture for `(.*?)` followed by ` ``` ` and `\s*</code></pre>`:
take the shortest prefix whose following fence is followed (after
whitespace) by `</code></pre>`. -/
def findCloseHtml : List Char → Option (List Char × List Char)
  | [] => none
  | c :: cs =>
    if isPrefixL tickFence (c :: cs) then
      let after := ((c :: cs).drop 3).dropWhile isPySpace
      if isPrefixL closeCodePre after then
        some ([], after.drop closeCodePre.length)
      else
        match findCloseHtml cs with
        | some (p, r) => some (c :: p, r)
        | none => none
    else
      match findCloseHtml cs with
      | some (p, r) => some (c :: p, r)
      | none => none

/-- Match `<pre><code>```(\w*)\n(.*?)```\s*</code></pre>` at the head of
`s`, returning the code capture and the remainder. -/
def matchHtmlAt (s : List Char) : Option (List Char × List Char) :=
  if isPrefixL preCodeOpen s then
    match (s.drop preCodeOpen.length).dropWhile isWordChar with
    | '\n' :: s2 => findCloseHtml s2
    | _ => none
  else none

/-- `re.findall` for the HTML-wrapped code-block pattern (code captures). -/
def htmlFindall : Nat → List Char → List (List Char)
  | 0, _ => []
  | _ + 1, [] => []
  | f + 1, c :: cs =>
    match matchHtmlAt (c :: cs) with
    | some (payload, rest) => payload :: htmlFindall f rest
    | none => htmlFindall f cs

/-- Lazy capture for `(.*?)` followed by ` ``` `: take the shortest prefix
ending at the next fence. -/
def findCloseFence : List Char → Option (List Char × List Char)
  | [] => none
  | c :: cs =>
    if isPrefixL tickFence (c :: cs) then some ([], (c :: cs).drop 3)
    else
      match findCloseFence cs with
      | some (p, r) => some (c :: p, r)
      | none => none

/-- Match ` ```\w*\n(.*?)``` ` at the head of `s`. -/
def matchFencedAt (s : List Char) : Option (List Char × List Char) :=
  if isPrefixL tickFence s then
    match (s.drop 3).dropWhile isWordChar with
    | '\n' :: s2 => findCloseFence s2
    | _ => none
  else none

/-- `re.findall` for the plain fenced-code pattern (code captures). -/
def fencedFindall : Nat → List Char → List (List Char)
  | 0, _ => []
  | _ + 1, [] => []
  | f + 1, c :: cs =>
    match matchFencedAt (c :: cs) with
    | some (payload, rest) => payload :: fencedFindall f rest
    | none => fencedFindall f cs

/-- Match `</?(?:p|pre|code)>` at the head of `s`. -/
def matchTag : List Char → Option (List Char)
  | '<' :: rest =>
    let rest := match rest with | '/' :: r => r | _ => rest
    if isPrefixL ['p', '>'] rest then some (rest.drop 2)
    else if isPrefixL ['p', 'r', 'e', '>'] rest then some (rest.drop 4)
    else if isPrefixL ['c', 'o', 'd', 'e', '>'] rest then some (rest.drop 5)
    else none
  | _ => none

/-- The final `re.sub`: delete remaining `<p>/<pre>/<code>` tags. -/
def removeTags : Nat → List Char → List Char
  | 0, s => s
  | _ + 1, [] => []
  | f + 1, c :: cs =>
    match matchTag (c :: cs) with
    | some rest => removeTags f rest
    | none => c :: removeTags f cs

/-- The body of `clean_example_content` on a non-empty content. -/
def cleanCore (content : List Char) : List Char :=
  -- Remove MkDocs admonition openers (line-anchored)
  let content := removeAdmonitionLines content
  -- Remove HTML paragraph tags that wrap the admonition
  let content := removePAdm content.length content
  -- Handle code blocks wrapped in HTML <pre><code> tags
  match htmlFindall content.length content with
  | m :: _ => pyStripL m
  | [] =>
    -- Handle regular fenced code blocks
    match fencedFindall content.length content with
    | m :: _ => pyStripL m
    | [] =>
      -- Clean up any remaining HTML tags, strip, and return
      pyStripL (removeTags content.length content)

/-- `clean_example_content` (`if not content: return content` is the
emptiness test on the character list). -/
def clean_example_content (content : String) : String :=
  if content.data.isEmpty then content
  else String.mk (cleanCore content.data)

/-! ## Specification-side definitions

These restate parts of the claims in independent form (character maps
instead of `str.replace`, filter-then-map instead of a fused loop, an
explicitly constructed two-code-block docstring) so the theorems compare
the embedded source functions against them. -/

/-- The claim's "path with every dot replaced by an underscore", as a
character map. -/
def dotToU (c : Char) : Char := if c = '.' then '_' else c

/-- The claim's "package name with separators/hyphens collapsed to
underscore", as a character map. -/
def sepToU (c : Char) : Char := if c = '-' ∨ c = '.' then '_' else c

/-- The claim's "the class's own non-private attribute members, in
declaration order, each with its annotation when present and plausible":
a filter followed by a map, independent of the fused loop in
`typeddict_attr_params`. -/
def specTypedDictParams (obj : OwnerObj) : List (String × String) :=
  (obj.members.filter fun nm =>
      !pyStartsWith nm.1 "_" &&
        (get_kind nm.2.gkind (some obj.gkind) = "attribute")).map
    fun nm =>
      (nm.1,
        match nm.2.annot with
        | some a => if a ≠ "" && !is_invalid_repr a then a else ""
        | none => "")

def fenceOpenPy : List Char :=
  ['`', '`', '`', 'p', 'y', 't', 'h', 'o', 'n', '\n']

/-- The characters of an example docstring consisting of two plain fenced
code blocks with payloads `p₁` and `p₂`:
` ```python\n<p₁>```\n```python\n<p₂>``` `. -/
def twoFencedL (p₁ p₂ : List Char) : List Char :=
  fenceOpenPy ++
    (p₁ ++ ('`' :: '`' :: '`' ::
      ('\n' :: (fenceOpenPy ++ (p₂ ++ ['`', '`', '`'])))))

/-- An example docstring consisting of two plain fenced code blocks with
payloads `p₁` and `p₂`. -/
def mkTwoFenced (p₁ p₂ : String) : String :=
  String.mk (twoFencedL p₁.data p₂.data)

/-- The number of graph paths not yet visited: the termination measure of
`_walk`'s recursion. -/
def unvis (g : Graph) (v : List String) : Nat :=
  (g.paths.filter fun x => x ∉ v).length

/-! ## Theorems -/

@[simp]
theorem isPrefixL_nil (l : List Char) : isPrefixL [] l = true := rfl

@[simp]
theorem isPrefixL_cons_nil (a : Char) (as : List Char) :
    isPrefixL (a :: as) [] = false := rfl

@[simp]
theorem isPrefixL_cons_cons (a b : Char) (as bs : List Char) :
    isPrefixL (a :: as) (b :: bs) = (a == b && isPrefixL as bs) := rfl

/-- C2: for ordered parameters `(a, b=1, *args, c, **kwargs)` the
synthesized signature renders `*args`/`**kwargs` verbatim, the `*` opening
the keyword-only section before `c` is the one of `*args` and no
additional bare `*` separator is inserted after the var-positional
parameter; a bare `*` appears only when no var-positional precedes the
first keyword-only parameter; and two positional-only parameters followed
by a normal one get a `/` separator immediately after the positional-only
run. -/
theorem c2_signature_round_trip :
    buildParamList
        [{ name := "a" }, { name := "b", default := some "1" },
         { name := "args", kind := .var_positional },
         { name := "c", kind := .keyword_only },
         { name := "kwargs", kind := .var_keyword }] =
      ["a", "b = 1", "*args", "c", "**kwargs"] ∧
    "*" ∉ buildParamList
        [{ name := "a" }, { name := "b", default := some "1" },
         { name := "args", kind := .var_positional },
         { name := "c", kind := .keyword_only },
         { name := "kwargs", kind := .var_keyword }] ∧
    get_signature
        { name := "f",
          parameters := some
            [{ name := "a" }, { name := "b", default := some "1" },
             { name := "args", kind := .var_positional },
             { name := "c", kind := .keyword_only },
             { name := "kwargs", kind := .var_keyword }] } =
      "f(\n    a,\n    b = 1,\n    *args,\n    c,\n    **kwargs,\n)" ∧
    buildParamList
        [{ name := "x", kind := .keyword_only },
         { name := "y", kind := .keyword_only }] = ["*", "x", "y"] ∧
    buildParamList
        [{ name := "p1", kind := .positional_only },
         { name := "p2", kind := .positional_only }, { name := "p3" }] =
      ["p1", "p2", "/", "p3"] := by
  decide

/-- C3 counterexample: with include-private unset, include-special set and
exclusion substring "secret", the dunder name `__init__` at path
`pkg.secret.__init__` is accepted by `_should_include` even though its
path contains the exclusion substring — the include-special early return
skips the exclusion re-check, so the claim as stated is false. -/
theorem c3_counterexample :
    should_include
        { package_name := "p", include_special := true,
          exclude_patterns := ["secret"] }
        { name := "__init__", path := "pkg.secret.__init__" } = true ∧
    pyIn "secret" "pkg.secret.__init__" = true := by
  decide

/-- C3 (amended): every node accepted by `_should_include` either has a
path containing none of the exclusion substrings, or was admitted through
the include-special dunder exception (leading underscore name, private
inclusion off, special inclusion on, dunder shape), which returns before
the exclusion re-check. -/
theorem c3_exclusion_recheck (cfg : ExtractionConfig) (obj : IncludeObj)
    (h : should_include cfg obj = true) :
    (∀ pat ∈ cfg.exclude_patterns, pyIn pat obj.path = false) ∨
      (pyStartsWith obj.name "_" = true ∧ cfg.include_private = false ∧
        cfg.include_special = true ∧ pyStartsWith obj.name "__" = true ∧
        pyEndsWith obj.name "__" = true) := by
  unfold should_include at h
  split at h
  · exact absurd h (by simp)
  · split at h
    next hpriv =>
      right
      simp only [Bool.and_eq_true, Bool.not_eq_true'] at hpriv h
      exact ⟨hpriv.1, hpriv.2, h.1.1, h.1.2, h.2⟩
    next =>
      left
      intro pat hp
      simp only [Bool.not_eq_true', List.any_eq_false] at h
      exact Bool.eq_false_iff.mpr (h pat hp)

/-- C3 witness: a concrete accepted symbol whose path avoids the
configured exclusion substring. -/
theorem c3_witness : pyIn "bar" "pkg.foo" = false := by
  rcases c3_exclusion_recheck
      { package_name := "p", exclude_patterns := ["bar"] }
      { name := "foo", path := "pkg.foo" } (by decide) with h | h
  · exact h "bar" (by decide)
  · exact absurd h.2.2.1 (by decide)

/-- C4: evaluating the composed `_section_to_dict` / `_extract_params`
pipeline on a parameter entry with no annotation and no default: the
emitted `type` is Python `None` (the key is present with value `None`, so
the `"Any"` fallback of `dict.get` never fires), while `required` is
`true` as the claim states. -/
theorem c4_missing_annotation_type_is_null :
    extract_params [section_to_dict ⟨"parameters", Sum.inl [{ name := "x" }]⟩] =
      [{ name := "x", type := none, required := true }] ∧
    extract_params
        [section_to_dict ⟨"parameters",
          Sum.inl [{ name := "x", annot := some "int", description := "d",
                     default := some "3" }]⟩] =
      [{ name := "x", type := some "int", required := false,
         description := some "d", default := some "3" }] := by
  decide

/-- C5: a parameter annotation (or default) whose string form triggers the
implausible-repr heuristic is omitted from the rendered parameter; a fully
assembled signature that still matches the heuristic is replaced by the
empty string; and the literal `<bound method Foo.bar>` triggers the
heuristic. -/
theorem c5_implausible_value_suppression :
    (∀ n a : String, is_invalid_repr a = true →
        buildParamList [{ name := n, annot := some a }] = [n]) ∧
    (∀ n d : String, is_invalid_repr d = true →
        buildParamList [{ name := n, default := some d }] = [n]) ∧
    (∀ (name : String) (ps : List Param) (ret : Option String),
        is_invalid_repr (assembleSig name ps ret) = true →
        get_signature { name := name, parameters := some ps, returns := ret } = "") ∧
    is_invalid_repr "<bound method Foo.bar>" = true := by
  refine ⟨?_, ?_, ?_, by decide⟩
  · intro n a h
    simp [buildParamList, sigStep, h]
  · intro n d h
    simp [buildParamList, sigStep, h]
  · intro name ps ret h
    simp [get_signature, h]

/-- C5 witness: the suppression at concrete inputs. -/
theorem c5_witness :
    buildParamList
        [{ name := "x", annot := some "<bound method Foo.bar>" }] = ["x"] ∧
    get_signature { name := "<function f at 0x0>", parameters := some [] } = "" :=
  ⟨c5_implausible_value_suppression.1 "x" "<bound method Foo.bar>" (by decide),
   c5_implausible_value_suppression.2.2.1 "<function f at 0x0>" [] none (by decide)⟩

/-- C9: for non-module kinds the canonical URL depends only on the kind,
the package name and the last dot-separated segment of the qualified path,
so two distinct symbols of the same kind whose paths share a final segment
collide on the same URL. -/
theorem c9_url_depends_on_last_segment (cfg : ExtractionConfig)
    (kind p₁ p₂ : String) (hk : kind ≠ "module")
    (hlast : (pySplit p₁ '.').getLastD "" = (pySplit p₂ '.').getLastD "") :
    generate_url cfg kind p₁ = generate_url cfg kind p₂ := by
  simp only [List.getLastD_eq_getLast?] at hlast
  by_cases h1 : kind = "class"
  · simp [generate_url, h1, hlast]
  · by_cases h2 : kind = "function"
    · simp [generate_url, h1, h2, hlast]
    · by_cases h3 : kind = "module"
      · exact absurd h3 hk
      · simp [generate_url, h1, h2, h3, hlast]

/-- C9 witness: two distinct class paths with the same final segment get
the identical canonical URL. -/
theorem c9_witness :
    generate_url { package_name := "my-pkg" } "class" "a.sub.Foo" =
      generate_url { package_name := "my-pkg" } "class" "b.Foo" :=
  c9_url_depends_on_last_segment { package_name := "my-pkg" } "class"
    "a.sub.Foo" "b.Foo" (by decide) (by decide)

/-- C8: the members list never contains an entry whose name begins with an
underscore, except the synthesized `__init__` constructor, and the result
does not depend on the privacy configuration flags at all. -/
theorem c8_no_private_member_entries (cfg cfg' : ExtractionConfig)
    (obj : OwnerObj) :
    (get_member_info cfg obj).all
        (fun m => !pyStartsWith m.name "_" ||
          (m.name = "__init__" && m.kind = "constructor")) = true ∧
    get_member_info cfg obj = get_member_info cfg' obj := by
  constructor
  · rw [List.all_eq_true]
    intro m hm
    rw [get_member_info, List.mem_append] at hm
    rcases hm with hm | hm
    · split at hm
      · simp only [synthesize_typeddict_init] at hm
        split at hm
        · simp at hm
        · simp only [Option.toList_some, List.mem_singleton] at hm
          subst hm
          simp
      · simp at hm
    · rw [List.mem_filterMap] at hm
      obtain ⟨nm, _, hsome⟩ := hm
      split at hsome
      · exact absurd hsome (by simp)
      next hpriv =>
        rw [Option.some_inj] at hsome
        subst hsome
        simp only [Bool.or_eq_true, Bool.not_eq_true']
        exact Or.inl (Bool.eq_false_iff.mpr hpriv)
  · rfl

/-- A `filterMap` whose body skips on two guards and otherwise maps is a
filter followed by a map. -/
theorem filterMap_two_guards {α β : Type} (p q : α → Prop) [DecidablePred p]
    [DecidablePred q] (f : α → β) :
    ∀ l : List α,
      (l.filterMap fun x => if p x then none else if q x then none else some (f x)) =
        (l.filter fun x => decide (¬p x) && decide (¬q x)).map f := by
  intro l
  induction l with
  | nil => rfl
  | cons a l ih =>
    rw [List.filterMap_cons, List.filter_cons]
    by_cases h1 : p a
    · simp [h1, ih]
    · by_cases h2 : q a
      · simp [h1, h2, ih]
      · simp [h1, h2, ih]

/-- The fused attribute-collection loop of `_synthesize_typeddict_init`
computes exactly the claim-side filter-then-map. -/
theorem typeddict_params_spec (obj : OwnerObj) :
    typeddict_attr_params obj = specTypedDictParams obj := by
  unfold typeddict_attr_params specTypedDictParams
  have h := filterMap_two_guards
    (fun nm : String × MemberObj => pyStartsWith nm.1 "_" = true)
    (fun nm : String × MemberObj =>
      get_kind nm.2.gkind (some obj.gkind) ≠ "attribute")
    (fun nm : String × MemberObj =>
      (nm.1,
        match nm.2.annot with
        | some a => if a ≠ "" && !is_invalid_repr a then a else ""
        | none => ""))
    obj.members
  rw [h]
  congr 1
  apply List.filter_congr
  intro nm _
  by_cases h1 : pyStartsWith nm.1 "_" = true
  · simp [h1]
  · by_cases h2 : get_kind nm.2.gkind (some obj.gkind) = "attribute"
    · simp [h1, h2]
    · simp [h1, h2]

/-- C7 counterexample: a TypedDict class with no eligible attribute
members gets no synthesized constructor at all (the code returns `None`
and the members list stays empty), contradicting the claim that a
constructor is synthesized for every TypedDict-backed class. -/
theorem c7_counterexample :
    is_typeddict { gkind := .cls, bases := ["TypedDict"], members := [] } = true ∧
    synthesize_typeddict_init
        { gkind := .cls, bases := ["TypedDict"], members := [] } = none ∧
    get_member_info { package_name := "p" }
        { gkind := .cls, bases := ["TypedDict"], members := [] } = [] := by
  decide

/-- C7 (amended): for a class with at least one eligible (non-private
attribute) member, `_synthesize_typeddict_init` produces an `__init__`
member of kind `constructor` whose parameters are exactly the class's own
non-private attribute members in declaration order, each annotation kept
when present and plausible (empty otherwise); for TypedDict classes this
member is prepended to the members list. -/
theorem c7_typeddict_constructor (cfg : ExtractionConfig) (obj : OwnerObj)
    (hne : specTypedDictParams obj ≠ []) :
    synthesize_typeddict_init obj =
      some { name := "__init__", kind := "constructor",
             signature := some ("__init__(\n    " ++
               String.intercalate ",\n    "
                 ((specTypedDictParams obj).map fun p =>
                   if p.2 ≠ "" then p.1 ++ ": " ++ p.2 else p.1) ++ ",\n)"),
             params := some (specTypedDictParams obj) } ∧
    (is_typeddict obj = true →
      (get_member_info cfg obj).head? =
        some { name := "__init__", kind := "constructor",
               signature := some ("__init__(\n    " ++
                 String.intercalate ",\n    "
                   ((specTypedDictParams obj).map fun p =>
                     if p.2 ≠ "" then p.1 ++ ": " ++ p.2 else p.1) ++ ",\n)"),
               params := some (specTypedDictParams obj) }) := by
  have key := typeddict_params_spec obj
  have hmain : synthesize_typeddict_init obj =
      some { name := "__init__", kind := "constructor",
             signature := some ("__init__(\n    " ++
               String.intercalate ",\n    "
                 ((specTypedDictParams obj).map fun p =>
                   if p.2 ≠ "" then p.1 ++ ": " ++ p.2 else p.1) ++ ",\n)"),
             params := some (specTypedDictParams obj) } := by
    rw [synthesize_typeddict_init, key]
    have hfalse : (specTypedDictParams obj).isEmpty = false := by
      simp [List.isEmpty_iff, hne]
    have hfalse2 : ((specTypedDictParams obj).map fun p =>
        if p.2 ≠ "" then p.1 ++ ": " ++ p.2 else p.1).isEmpty = false := by
      simp [List.isEmpty_iff, hne]
    simp only [hfalse, hfalse2, Bool.false_eq_true, if_false]
  refine ⟨hmain, fun htd => ?_⟩
  rw [get_member_info, htd]
  simp [hmain]

/-- Single-character `str.replace` is a character map. -/
theorem replaceL_single (a b : Char) :
    ∀ (f : Nat) (l : List Char), l.length ≤ f →
      replaceL a [] [b] f l = l.map fun c => if c = a then b else c := by
  intro f
  induction f with
  | zero =>
    intro l hl
    rw [List.length_eq_zero.mp (Nat.le_zero.mp hl)]
    rfl
  | succ f ih =>
    intro l hl
    cases l with
    | nil => rfl
    | cons c cs =>
      by_cases h : a = c
      · subst h
        have hcond : isPrefixL [a] (a :: cs) = true := by simp
        simp only [replaceL, hcond, if_true, List.length_nil,
          List.drop_succ_cons, List.drop_zero, List.map_cons, if_pos rfl]
        rw [ih cs (by simpa using hl)]
        rfl
      · have hcond : isPrefixL [a] (c :: cs) = false := by
          simp [h]
        simp only [replaceL, hcond, Bool.false_eq_true, if_false,
          List.map_cons]
        rw [ih cs (by simpa using hl)]
        rw [if_neg fun hc => h hc.symm]

theorem pyReplace_dot (s : String) :
    pyReplace s "." "_" =
      String.mk (s.data.map fun c => if c = '.' then '_' else c) := by
  show String.mk (replaceL '.' [] ['_'] s.data.length s.data) = _
  rw [replaceL_single '.' '_' s.data.length s.data le_rfl]

theorem pyReplace_dash (s : String) :
    pyReplace s "-" "_" =
      String.mk (s.data.map fun c => if c = '-' then '_' else c) := by
  show String.mk (replaceL '-' [] ['_'] s.data.length s.data) = _
  rw [replaceL_single '-' '_' s.data.length s.data le_rfl]

set_option maxRecDepth 4000 in
/-- C1 counterexample: the emitted symbol identifier for kind `class` and
path `a.b` has the prefix `sym_py_`, not `sym_`: no 8-character hash
suffix can make it fit the claimed `"sym_" + kind + "_" + path + "_" +
hash8` shape; likewise the package identifier carries a `pkg_py_` prefix,
not `pkg_`. -/
theorem c1_counterexample :
    (¬∃ h8 : String, h8.length = 8 ∧
        generate_symbol_id "class" "a.b" = "sym_class_a_b_" ++ h8) ∧
    generate_package_id { package_name := "my-pkg" } ≠ "pkg_my_pkg" := by
  constructor
  · rintro ⟨h8, hlen, heq⟩
    have hid : generate_symbol_id "class" "a.b" = "sym_py_class_a_b_e32b629f" := by
      decide
    rw [hid] at heq
    have hL := congrArg String.length heq
    rw [String.length_append, hlen] at hL
    have h1 : ("sym_py_class_a_b_e32b629f" : String).length = 25 := rfl
    have h2 : ("sym_class_a_b_" : String).length = 14 := rfl
    rw [h1, h2] at hL
    exact absurd hL (by decide)
  · decide

/-- C1 (amended): the emitted symbol identifier is
`"sym_py_" + kind + "_" + (path with dots mapped to underscores) + "_" +
first8HexOfMD5(path)`, and the package identifier is `"pkg_py_" +
(package name with hyphens and dots mapped to underscores)`; both are
deterministic functions of their inputs (pure functions of `(kind, path)`
resp. the package name). -/
theorem c1_identifier_scheme :
    (∀ kind path : String,
        generate_symbol_id kind path =
          "sym_py_" ++ kind ++ "_" ++ String.mk (path.data.map dotToU) ++
            "_" ++ hexPrefix8 (md5hex path)) ∧
    (∀ cfg : ExtractionConfig,
        generate_package_id cfg =
          "pkg_py_" ++ String.mk (cfg.package_name.data.map sepToU)) := by
  constructor
  · intro kind path
    show "sym_py_" ++ kind ++ "_" ++ pyReplace path "." "_" ++ "_" ++
        hexPrefix8 (md5hex path) = _
    rw [pyReplace_dot]
    rfl
  · intro cfg
    show "pkg_py_" ++ pyReplace (pyReplace cfg.package_name "-" "_") "." "_" = _
    rw [pyReplace_dash, pyReplace_dot]
    congr 1
    show String.mk ((cfg.package_name.data.map fun c =>
        if c = '-' then '_' else c).map fun c => if c = '.' then '_' else c) = _
    rw [List.map_map]
    congr 1
    apply List.map_congr_left
    intro c _
    by_cases h1 : c = '-'
    · simp [h1, dotToU, sepToU]
    · by_cases h2 : c = '.'
      · simp [h1, h2, dotToU, sepToU]
      · simp [h1, h2, dotToU, sepToU]

theorem walk_succ (g : Graph) (cfg : ExtractionConfig) (fuel : Nat)
    (p : String) (v : List String) :
    walk g cfg (fuel + 1) p v =
      match g.find p with
      | none => ([], v)
      | some obj =>
        if obj.path = "" then walkBody cfg (walk g cfg fuel) obj v
        else if obj.path ∈ v then ([], v)
        else walkBody cfg (walk g cfg fuel) obj (obj.path :: v) := rfl

/-- The member loop only grows the visited set. -/
theorem walkList_mono (cfg : ExtractionConfig)
    (f : String → List String → List String × List String)
    (hf : ∀ p v, v ⊆ (f p v).2) :
    ∀ (ms : List String) (v : List String), v ⊆ (walkList cfg f ms v).2 := by
  intro ms
  induction ms with
  | nil => intro v; simp [walkList]
  | cons m ms ih =>
    intro v
    simp only [walkList]
    split
    · exact ih v
    · exact (hf m v).trans (ih (f m v).2)

theorem walkBody_mono (cfg : ExtractionConfig)
    (f : String → List String → List String × List String)
    (hf : ∀ p v, v ⊆ (f p v).2) (obj : GNode) (v : List String) :
    v ⊆ (walkBody cfg f obj v).2 := by
  unfold walkBody
  split
  · simp
  · split
    · simp
    · exact walkList_mono cfg f hf obj.members v

/-- The walk only grows the visited set. -/
theorem walk_mono (g : Graph) (cfg : ExtractionConfig) :
    ∀ (fuel : Nat) (p : String) (v : List String),
      v ⊆ (walk g cfg fuel p v).2 := by
  intro fuel
  induction fuel with
  | zero => intro p v; simp [walk]
  | succ fuel ih =>
    intro p v
    rw [walk_succ]
    cases hfind : g.find p with
    | none => simp
    | some obj =>
      simp only
      split
      · exact walkBody_mono cfg _ ih obj v
      · split
        · simp
        · exact (List.subset_cons_self _ _).trans
            (walkBody_mono cfg _ ih obj (obj.path :: v))

/-- Invariant of the member loop: yields are fresh (not previously
visited), recorded in the final visited set, drawn from the graph's
node paths, and pairwise distinct. -/
theorem walkList_inv (cfg : ExtractionConfig)
    (f : String → List String → List String × List String)
    (paths : List String)
    (hf : ∀ p v, ((f p v).1.Nodup ∧ v ⊆ (f p v).2) ∧
      ∀ y ∈ (f p v).1, y ∉ v ∧ y ∈ (f p v).2 ∧ y ∈ paths) :
    ∀ (ms : List String) (v : List String),
      (((walkList cfg f ms v).1.Nodup ∧ v ⊆ (walkList cfg f ms v).2) ∧
        ∀ y ∈ (walkList cfg f ms v).1,
          y ∉ v ∧ y ∈ (walkList cfg f ms v).2 ∧ y ∈ paths) := by
  intro ms
  induction ms with
  | nil =>
    intro v
    simp [walkList]
  | cons m ms ih =>
    intro v
    simp only [walkList]
    split
    · exact ih v
    · obtain ⟨⟨hn1, hs1⟩, hy1⟩ := hf m v
      obtain ⟨⟨hn2, hs2⟩, hy2⟩ := ih (f m v).2
      refine ⟨⟨?_, hs1.trans hs2⟩, ?_⟩
      · refine hn1.append hn2 ?_
        intro y hy hy'
        exact ((hy2 y hy').1) ((hy1 y hy).2.1)
      · intro y hy
        rcases List.mem_append.mp hy with hy | hy
        · exact ⟨(hy1 y hy).1, hs2 (hy1 y hy).2.1, (hy1 y hy).2.2⟩
        · exact ⟨fun hv => (hy2 y hy).1 (hs1 hv), (hy2 y hy).2.1, (hy2 y hy).2.2⟩

/-- Invariant of the walk (for graphs whose nodes carry non-empty
qualified paths): yielded paths are fresh, recorded as visited, drawn
from the graph, and pairwise distinct. -/
theorem walk_inv (g : Graph) (cfg : ExtractionConfig)
    (hwf : ∀ n ∈ g.nodes, n.path ≠ "") :
    ∀ (fuel : Nat) (p : String) (v : List String),
      (((walk g cfg fuel p v).1.Nodup ∧ v ⊆ (walk g cfg fuel p v).2) ∧
        ∀ y ∈ (walk g cfg fuel p v).1,
          y ∉ v ∧ y ∈ (walk g cfg fuel p v).2 ∧ y ∈ g.nodes.map GNode.path) := by
  intro fuel
  induction fuel with
  | zero =>
    intro p v
    simp [walk]
  | succ fuel ih =>
    intro p v
    rw [walk_succ]
    cases hfind : g.find p with
    | none => simp
    | some obj =>
      have hobjmem : obj ∈ g.nodes := List.mem_of_find?_eq_some hfind
      have hpne : obj.path ≠ "" := hwf _ hobjmem
      have hpp : obj.path ∈ g.nodes.map GNode.path :=
        List.mem_map_of_mem _ hobjmem
      simp only
      rw [if_neg hpne]
      by_cases hv : obj.path ∈ v
      · rw [if_pos hv]
        simp
      · rw [if_neg hv]
        unfold walkBody
        split
        · simp [List.subset_cons_self]
        · split
          · simp [List.subset_cons_self]
          · obtain ⟨⟨hn, hs⟩, hy⟩ :=
              walkList_inv cfg _ _ ih obj.members (obj.path :: v)
            refine ⟨⟨?_, (List.subset_cons_self _ _).trans hs⟩, ?_⟩
            · refine List.nodup_cons.mpr ⟨?_, hn⟩
              intro hmem
              exact (hy _ hmem).1 (List.mem_cons_self _ _)
            · intro y hy'
              rcases List.mem_cons.mp hy' with rfl | hy'
              · exact ⟨hv, hs (List.mem_cons_self _ _), hpp⟩
              · refine ⟨fun hyv => (hy y hy').1 (List.mem_cons_of_mem _ hyv),
                  (hy y hy').2.1, (hy y hy').2.2⟩

/-- Filtering with a stronger predicate keeps no more elements. -/
theorem length_filter_le {α : Type} (l : List α) (p q : α → Bool)
    (h : ∀ a, q a = true → p a = true) :
    (l.filter q).length ≤ (l.filter p).length := by
  induction l with
  | nil => simp
  | cons a l ih =>
    rw [List.filter_cons, List.filter_cons]
    by_cases hq : q a = true
    · rw [if_pos hq, if_pos (h a hq)]
      simpa using ih
    · rw [if_neg hq]
      split
      · exact ih.trans (Nat.le_succ _)
      · exact ih

theorem unvis_anti (g : Graph) {v w : List String} (h : v ⊆ w) :
    unvis g w ≤ unvis g v := by
  refine length_filter_le _ _ _ ?_
  intro a ha
  simp only [decide_eq_true_eq] at ha ⊢
  exact fun hav => ha (h hav)

theorem unvis_cons_lt (g : Graph) {x : String} {v : List String}
    (hx : x ∈ g.paths) (hv : x ∉ v) : unvis g (x :: v) < unvis g v := by
  unfold unvis
  have key : ∀ l : List String, x ∈ l →
      (l.filter fun y => y ∉ x :: v).length <
        (l.filter fun y => y ∉ v).length := by
    intro l hl
    induction l with
    | nil => cases hl
    | cons a l ih =>
      rw [List.filter_cons, List.filter_cons]
      by_cases ha : a = x
      · subst ha
        rw [if_neg (by simp), if_pos (by simpa using hv)]
        have := length_filter_le l (fun y => decide (y ∉ v))
          (fun y => decide (y ∉ a :: v)) ?_
        · simp only [List.length_cons]
          omega
        · intro y hy
          simp only [decide_eq_true_eq, List.mem_cons, not_or] at hy ⊢
          exact hy.2
      · have hx' : x ∈ l := by
          rcases List.mem_cons.mp hl with h | h
          · exact absurd h.symm ha
          · exact h
        by_cases hav : a ∈ v
        · rw [if_neg (by simp [hav]), if_neg (by simp [hav])]
          exact ih hx'
        · rw [if_pos (by simp [hav, ha]), if_pos (by simp [hav])]
          exact Nat.succ_lt_succ (ih hx')
  exact key g.paths hx

theorem walkBody_congr (cfg : ExtractionConfig)
    (f₁ f₂ : String → List String → List String × List String)
    (obj : GNode) (v : List String)
    (h : walkList cfg f₁ obj.members v = walkList cfg f₂ obj.members v) :
    walkBody cfg f₁ obj v = walkBody cfg f₂ obj v := by
  unfold walkBody
  split
  · rfl
  · split
    · rfl
    · rw [h]

/-- Fuel-stabilization of the member loop. -/
theorem walkList_stab (g : Graph) (cfg : ExtractionConfig)
    (f₁ f₂ : String → List String → List String × List String) (F : Nat)
    (hmono : ∀ p v, v ⊆ (f₁ p v).2)
    (hstab : ∀ p v, unvis g v < F → f₁ p v = f₂ p v) :
    ∀ (ms : List String) (v : List String), unvis g v < F →
      walkList cfg f₁ ms v = walkList cfg f₂ ms v := by
  intro ms
  induction ms with
  | nil => intro v _; rfl
  | cons m ms ih =>
    intro v hV
    simp only [walkList]
    split
    · exact ih v hV
    · have h1 : f₁ m v = f₂ m v := hstab m v hV
      have h2 : unvis g (f₁ m v).2 < F :=
        lt_of_le_of_lt (unvis_anti g (hmono m v)) hV
      rw [ih (f₁ m v).2 h2, h1]

/-- Fuel-stabilization of the walk: once the fuel exceeds the number of
unvisited paths, adding more fuel never changes the result — this is the
termination content of the Python recursion, whose depth is bounded by the
visited-set growth. -/
theorem walk_stab (g : Graph) (cfg : ExtractionConfig)
    (hwf : ∀ n ∈ g.nodes, n.path ≠ "") :
    ∀ (fuel : Nat) (p : String) (v : List String), unvis g v < fuel →
      walk g cfg fuel p v = walk g cfg (fuel + 1) p v := by
  intro fuel
  induction fuel with
  | zero => intro p v h; exact absurd h (Nat.not_lt_zero _)
  | succ fuel ih =>
    intro p v hV
    rw [walk_succ, walk_succ]
    cases hfind : g.find p with
    | none => rfl
    | some obj =>
      have hobjmem : obj ∈ g.nodes := List.mem_of_find?_eq_some hfind
      have hpne : obj.path ≠ "" := hwf _ hobjmem
      simp only
      rw [if_neg hpne, if_neg hpne]
      by_cases hv : obj.path ∈ v
      · rw [if_pos hv, if_pos hv]
      · rw [if_neg hv, if_neg hv]
        have hpp : obj.path ∈ g.paths :=
          List.mem_dedup.mpr (List.mem_map_of_mem _ hobjmem)
        have hlt : unvis g (obj.path :: v) < fuel := by
          have := unvis_cons_lt g hpp hv
          omega
        exact walkBody_congr cfg _ _ obj _
          (walkList_stab g cfg _ _ fuel (walk_mono g cfg fuel) ih
            obj.members (obj.path :: v) hlt)

/-- C6: for every symbol graph with non-empty qualified paths (the
RawSymbol invariant), every configuration and every root, the walk run
with fuel one more than the number of distinct qualified paths yields
pairwise-distinct nodes, at most one per distinct qualified path, and any
further fuel leaves the result unchanged (the recursion has terminated). -/
theorem c6_walk_cycle_safety (g : Graph) (cfg : ExtractionConfig)
    (root : String) (hwf : ∀ n ∈ g.nodes, n.path ≠ "") :
    ((walk g cfg (g.paths.length + 1) root []).1).Nodup ∧
    (walk g cfg (g.paths.length + 1) root []).1.length ≤ g.paths.length ∧
    ∀ fuel, g.paths.length + 1 ≤ fuel →
      walk g cfg fuel root [] = walk g cfg (g.paths.length + 1) root [] := by
  obtain ⟨⟨hnd, -⟩, hy⟩ :=
    walk_inv g cfg hwf (g.paths.length + 1) root []
  have hsub : (walk g cfg (g.paths.length + 1) root []).1 ⊆ g.paths := by
    intro y hy'
    exact List.mem_dedup.mpr (hy y hy').2.2
  have hzero : unvis g ([] : List String) = g.paths.length := by
    unfold unvis
    rw [List.filter_eq_self.mpr (by simp)]
  refine ⟨hnd, (hnd.subperm hsub).length_le, ?_⟩
  have aux : ∀ d, walk g cfg (g.paths.length + 1 + d) root [] =
      walk g cfg (g.paths.length + 1) root [] := by
    intro d
    induction d with
    | zero => rfl
    | succ d ih =>
      have hstep := walk_stab g cfg hwf (g.paths.length + 1 + d) root []
        (by rw [hzero]; omega)
      calc walk g cfg (g.paths.length + 1 + (d + 1)) root []
          = walk g cfg (g.paths.length + 1 + d) root [] := hstep.symm
        _ = walk g cfg (g.paths.length + 1) root [] := ih
  intro fuel hf
  obtain ⟨d, rfl⟩ : ∃ d, fuel = g.paths.length + 1 + d :=
    ⟨fuel - (g.paths.length + 1), by omega⟩
  exact aux d

/-- C6 witness: a two-node graph with a member edge pointing back to its
ancestor (a cycle); the walk terminates, yields each path once, and extra
fuel changes nothing. -/
theorem c6_witness :
    ((walk
        { nodes := [{ path := "a", members := ["a.b"] },
                    { path := "a.b", members := ["a"] }] }
        { package_name := "p" } 3 "a" []).1).Nodup ∧
    (walk
        { nodes := [{ path := "a", members := ["a.b"] },
                    { path := "a.b", members := ["a"] }] }
        { package_name := "p" } 3 "a" []).1.length ≤ 2 ∧
    walk
        { nodes := [{ path := "a", members := ["a.b"] },
                    { path := "a.b", members := ["a"] }] }
        { package_name := "p" } 9 "a" [] =
      walk
        { nodes := [{ path := "a", members := ["a.b"] },
                    { path := "a.b", members := ["a"] }] }
        { package_name := "p" } 3 "a" [] := by
  have h := c6_walk_cycle_safety
    { nodes := [{ path := "a", members := ["a.b"] },
                { path := "a.b", members := ["a"] }] }
    { package_name := "p" } "a" (by decide)
  have hp : (Graph.paths
      { nodes := [{ path := "a", members := ["a.b"] },
                  { path := "a.b", members := ["a"] }] }).length = 2 := by decide
  rw [hp] at h
  exact ⟨h.1, h.2.1, h.2.2 9 (by omega)⟩

/-- C7 witness: a concrete TypedDict class with one typed attribute and
one method gets the synthesized one-parameter constructor. -/
theorem c7_witness :
    synthesize_typeddict_init
        { gkind := .cls, bases := ["TypedDict"],
          members := [("x", { gkind := .attribute, annot := some "int" }),
                      ("m", { gkind := .function })] } =
      some { name := "__init__", kind := "constructor",
             signature := some "__init__(\n    x: int,\n)",
             params := some [("x", "int")] } := by
  rw [(c7_typeddict_constructor { package_name := "p" }
      { gkind := .cls, bases := ["TypedDict"],
        members := [("x", { gkind := .attribute, annot := some "int" }),
                    ("m", { gkind := .function })] } (by decide)).1]
  decide

theorem joinNl_cons_cons (c : Char) (l : List Char) (ls : List (List Char)) :
    joinNl ((c :: l) :: ls) = c :: joinNl (l :: ls) := by
  cases ls <;> rfl

theorem splitCh_ne_nil (sep : Char) (s : List Char) : splitCh sep s ≠ [] := by
  cases s with
  | nil => simp [splitCh]
  | cons c cs =>
    simp only [splitCh]
    split
    · simp
    · cases splitCh sep cs <;> simp

/-- Splitting on newlines then re-joining is the identity. -/
theorem joinNl_splitCh (s : List Char) : joinNl (splitCh '\n' s) = s := by
  induction s with
  | nil => rfl
  | cons c cs ih =>
    simp only [splitCh]
    by_cases h : c = '\n'
    · rw [if_pos h]
      cases hsp : splitCh '\n' cs with
      | nil => exact absurd hsp (splitCh_ne_nil _ _)
      | cons l ls =>
        rw [hsp] at ih
        subst h
        show '\n' :: joinNl (l :: ls) = '\n' :: cs
        rw [ih]
    · rw [if_neg h]
      cases hsp : splitCh '\n' cs with
      | nil => exact absurd hsp (splitCh_ne_nil _ _)
      | cons l ls =>
        rw [hsp] at ih
        rw [joinNl_cons_cons, ih]

/-- Every character of a line produced by the newline split occurs in the
split input. -/
theorem mem_of_mem_splitCh (sep : Char) :
    ∀ (s l : List Char), l ∈ splitCh sep s → ∀ c ∈ l, c ∈ s := by
  intro s
  induction s with
  | nil =>
    intro l hl c hc
    simp only [splitCh, List.mem_singleton] at hl
    subst hl
    cases hc
  | cons a s ih =>
    intro l hl c hc
    simp only [splitCh] at hl
    by_cases h : a = sep
    · rw [if_pos h] at hl
      rcases List.mem_cons.mp hl with rfl | hl
      · cases hc
      · exact List.mem_cons_of_mem _ (ih l hl c hc)
    · rw [if_neg h] at hl
      cases hsp : splitCh sep s with
      | nil => exact absurd hsp (splitCh_ne_nil _ _)
      | cons l0 ls =>
        rw [hsp] at hl
        rcases List.mem_cons.mp hl with rfl | hl
        · rcases List.mem_cons.mp hc with rfl | hc
          · exact List.mem_cons_self _ _
          · refine List.mem_cons_of_mem _ (ih l0 ?_ c hc)
            rw [hsp]
            exact List.mem_cons_self _ _
        · refine List.mem_cons_of_mem _ (ih l ?_ c hc)
          rw [hsp]
          exact List.mem_cons_of_mem _ hl

/-- Content without admonition markers is unchanged by the first `re.sub`. -/
theorem removeAdmonitionLines_id (s : List Char)
    (h : ∀ c ∈ s, c ≠ '?' ∧ c ≠ '!') :
    removeAdmonitionLines s = s := by
  unfold removeAdmonitionLines
  have hlines : ∀ l ∈ splitCh '\n' s, admLine l = false := by
    intro l hl
    cases l with
    | nil => rfl
    | cons c1 rest =>
      cases rest with
      | nil => rfl
      | cons c2 rest2 =>
        cases rest2 with
        | nil => rfl
        | cons c3 rest3 =>
          have hc1 := h c1 (mem_of_mem_splitCh '\n' s _ hl c1
            (List.mem_cons_self _ _))
          simp [admLine, isQB, hc1.1, hc1.2]
  calc joinNl ((splitCh '\n' s).map fun l => if admLine l then [] else l)
      = joinNl ((splitCh '\n' s).map id) := by
        apply congrArg
        apply List.map_congr_left
        intro l hl
        simp [hlines l hl]
    _ = s := by rw [List.map_id, joinNl_splitCh]

theorem matchPAdm_none (c : Char) (cs : List Char) (h : c ≠ '<') :
    matchPAdm (c :: cs) = none := by
  have h' : ¬isPrefixL ['<', 'p', '>'] (c :: cs) = true := by
    simp only [isPrefixL_cons_cons, Bool.and_eq_true, beq_iff_eq]
    exact fun hc => h hc.1.symm
  unfold matchPAdm
  rw [if_neg h']

/-- Content without `<` is unchanged by the `<p>…</p>` `re.sub`. -/
theorem removePAdm_id :
    ∀ (f : Nat) (s : List Char), (∀ c ∈ s, c ≠ '<') → removePAdm f s = s := by
  intro f
  induction f with
  | zero => intro s _; rfl
  | succ f ih =>
    intro s h
    cases s with
    | nil => rfl
    | cons c cs =>
      simp only [removePAdm, matchPAdm_none c cs (h c (List.mem_cons_self _ _))]
      rw [ih cs fun c' hc' => h c' (List.mem_cons_of_mem _ hc')]

theorem matchHtmlAt_none (c : Char) (cs : List Char) (h : c ≠ '<') :
    matchHtmlAt (c :: cs) = none := by
  have h' : ¬isPrefixL preCodeOpen (c :: cs) = true := by
    simp only [preCodeOpen, isPrefixL_cons_cons, Bool.and_eq_true, beq_iff_eq]
    exact fun hc => h hc.1.symm
  unfold matchHtmlAt
  rw [if_neg h']

/-- Content without `<` has no HTML-wrapped code blocks. -/
theorem htmlFindall_nil :
    ∀ (f : Nat) (s : List Char), (∀ c ∈ s, c ≠ '<') → htmlFindall f s = [] := by
  intro f
  induction f with
  | zero => intro s _; rfl
  | succ f ih =>
    intro s h
    cases s with
    | nil => rfl
    | cons c cs =>
      simp only [htmlFindall, matchHtmlAt_none c cs (h c (List.mem_cons_self _ _))]
      exact ih cs fun c' hc' => h c' (List.mem_cons_of_mem _ hc')

/-- The lazy fence-close scan stops at the first fence after a
backtick-free payload. -/
theorem findCloseFence_append (p r : List Char) (hp : ∀ c ∈ p, c ≠ '`') :
    findCloseFence (p ++ '`' :: '`' :: '`' :: r) = some (p, r) := by
  induction p with
  | nil => rfl
  | cons c p ih =>
    have hc := hp c (List.mem_cons_self _ _)
    have h' : ¬isPrefixL tickFence (c :: (p ++ '`' :: '`' :: '`' :: r)) = true := by
      simp only [tickFence, isPrefixL_cons_cons, Bool.and_eq_true, beq_iff_eq]
      exact fun hc' => hc hc'.1.symm
    simp only [List.cons_append, findCloseFence, List.append_eq]
    rw [if_neg h', ih fun c' hc' => hp c' (List.mem_cons_of_mem _ hc')]

theorem fencedFindall_cons (f : Nat) (c : Char) (cs payload rest : List Char)
    (h : matchFencedAt (c :: cs) = some (payload, rest)) :
    fencedFindall (f + 1) (c :: cs) = payload :: fencedFindall f rest := by
  simp only [fencedFindall, h]

/-- C10: cleaning an example whose content holds two fenced code blocks
returns only the first block's payload, stripped: generally for two plain
fenced blocks with marker-free payloads (no backtick, no `<`, no `?`/`!`),
and concretely for two HTML-wrapped blocks, where the first HTML-wrapped
payload wins; the second block is discarded in both cases. -/
theorem c10_first_code_block_only (p₁ p₂ : String)
    (h1 : ∀ c ∈ p₁.data, c ≠ '`' ∧ c ≠ '<' ∧ c ≠ '?' ∧ c ≠ '!')
    (h2 : ∀ c ∈ p₂.data, c ≠ '`' ∧ c ≠ '<' ∧ c ≠ '?' ∧ c ≠ '!') :
    clean_example_content (mkTwoFenced p₁ p₂) = pyStrip p₁ ∧
    clean_example_content
        "<pre><code>```python\nA = 1\n```\n</code></pre>\n<pre><code>```python\nB = 2\n```\n</code></pre>"
      = "A = 1" := by
  constructor
  · have hchars : ∀ c ∈ twoFencedL p₁.data p₂.data,
        c ≠ '<' ∧ c ≠ '?' ∧ c ≠ '!' := by
      intro c hc
      by_cases hp1 : c ∈ p₁.data
      · exact (h1 c hp1).2
      · by_cases hp2 : c ∈ p₂.data
        · exact (h2 c hp2).2
        · have hmem : c ∈ ['`', 'p', 'y', 't', 'h', 'o', 'n', '\n'] := by
            simp only [twoFencedL, fenceOpenPy, List.mem_append,
              List.mem_cons, List.not_mem_nil, or_false] at hc
            simp only [hp1, hp2, or_false, false_or] at hc
            simp only [List.mem_cons, List.not_mem_nil, or_false]
            tauto
          fin_cases hmem <;> exact ⟨by decide, by decide, by decide⟩
    show (if (mkTwoFenced p₁ p₂).data.isEmpty = true then mkTwoFenced p₁ p₂
      else String.mk (cleanCore (mkTwoFenced p₁ p₂).data)) = pyStrip p₁
    rw [if_neg (by
      show ¬(twoFencedL p₁.data p₂.data).isEmpty = true
      simp [twoFencedL, fenceOpenPy])]
    show String.mk (cleanCore (twoFencedL p₁.data p₂.data)) = pyStrip p₁
    have hcore : cleanCore (twoFencedL p₁.data p₂.data) = pyStripL p₁.data := by
      have e1 : removeAdmonitionLines (twoFencedL p₁.data p₂.data) =
          twoFencedL p₁.data p₂.data :=
        removeAdmonitionLines_id _ fun c hc =>
          ⟨(hchars c hc).2.1, (hchars c hc).2.2⟩
      have e2 : removePAdm (twoFencedL p₁.data p₂.data).length
          (twoFencedL p₁.data p₂.data) = twoFencedL p₁.data p₂.data :=
        removePAdm_id _ _ fun c hc => (hchars c hc).1
      have e3 : htmlFindall (twoFencedL p₁.data p₂.data).length
          (twoFencedL p₁.data p₂.data) = [] :=
        htmlFindall_nil _ _ fun c hc => (hchars c hc).1
      have hmatch : matchFencedAt (twoFencedL p₁.data p₂.data) =
          some (p₁.data,
            '\n' :: (fenceOpenPy ++ (p₂.data ++ ['`', '`', '`']))) := by
        show findCloseFence (p₁.data ++ '`' :: '`' :: '`' ::
            ('\n' :: (fenceOpenPy ++ (p₂.data ++ ['`', '`', '`'])))) = _
        exact findCloseFence_append _ _ fun c hc => (h1 c hc).1
      have hpos : 0 < (twoFencedL p₁.data p₂.data).length := by
        simp [twoFencedL, fenceOpenPy]
      obtain ⟨k, hk⟩ : ∃ k, (twoFencedL p₁.data p₂.data).length = k + 1 :=
        ⟨(twoFencedL p₁.data p₂.data).length - 1, by omega⟩
      have e4 : fencedFindall (twoFencedL p₁.data p₂.data).length
          (twoFencedL p₁.data p₂.data) =
          p₁.data :: fencedFindall k
            ('\n' :: (fenceOpenPy ++ (p₂.data ++ ['`', '`', '`']))) := by
        rw [hk]
        exact fencedFindall_cons k '`' _ _ _ hmatch
      simp only [cleanCore, e1, e2, e3, e4]
    rw [hcore]
    rfl
  · decide

/-- C10 witness: the general two-block theorem at concrete payloads. -/
theorem c10_witness :
    clean_example_content (mkTwoFenced "x = 1\n" "y = 2") = pyStrip "x = 1\n" :=
  (c10_first_code_block_only "x = 1\n" "y = 2" (by decide) (by decide)).1

end LCRef
